import Mathlib

/-!
Verification of the LWM2M bootstrapper client: the TLV codec
(`TLVFromBytes`), the bootstrap object-write path
(`storeObjectInstanceTLV`, `bsHandleObjectID`), the CoAP URL parsing
(`parseCoapURL`), the device readiness predicates, and the in-memory
blob store (`MemStore`).

Bytes are modelled as `Nat` (Go `byte` values are below 256; the decoder
only reads bits, so no wrapping arithmetic occurs). Go byte slices become
`List Nat`; slicing `data[n:]` becomes `List.drop`. Go's single `error`
results become explicit `Except`/`Option` values whose constructors match
the `fmt.Errorf` sites of the source one for one.
-/

/-- The type of TLV, per the source constants `ObjectInstance = 0`,
`ResourceInstance = 1`, `MultiResource = 2`, `Resource = 3`. -/
inductive TLVType where
  | objectInstance
  | resourceInstance
  | multiResource
  | resource
deriving DecidableEq

/-- Conversion `TLVType((data[0] >> 6) & 0x3)` from the 2-bit tag.
The argument is always masked with `0x3`, so the catch-all is the tag `3`. -/
def TLVType.ofTag : Nat → TLVType
  | 0 => .objectInstance
  | 1 => .resourceInstance
  | 2 => .multiResource
  | _ => .resource

/-- The container test of the source:
`(t.Type == ObjectInstance) || (t.Type == MultiResource)`. -/
def TLVType.isContainer : TLVType → Bool
  | .objectInstance => true
  | .multiResource => true
  | _ => false

/-- Errors of `TLVFromBytes`. The source has exactly two error shapes,
both truncation errors:
`fmt.Errorf("Data short to be a valid TLV")` and
`fmt.Errorf("Data short to be a valid TLV. Needed %v, got %v", ...)`. -/
inductive TLVErr where
  | short
  | shortNeeded (needed got : Nat)
deriving DecidableEq

/-- Every error constructor of the source is a short-input ("Data short")
error; there is no other error kind in the TLV decoder. -/
def TLVErr.isShort : TLVErr → Bool
  | .short => true
  | .shortNeeded _ _ => true

/-- A parsed LWM2M TLV entry: `Type`, `Identifier`, `Value`, `Children`. -/
inductive TLV where
  | mk (type : TLVType) (identifier : Nat) (value : List Nat) (children : List TLV)

def TLV.type : TLV → TLVType
  | .mk t _ _ _ => t

def TLV.identifier : TLV → Nat
  | .mk _ i _ _ => i

def TLV.value : TLV → List Nat
  | .mk _ _ v _ => v

def TLV.children : TLV → List TLV
  | .mk _ _ _ c => c

/-- Identifier field decoding, source lines 54-66: one byte when header
bit 5 is clear, otherwise two big-endian bytes. -/
def parseId (typeField : Nat) (data : List Nat) : Except TLVErr (Nat × List Nat) :=
  if typeField &&& 32 == 0 then
    match data with
    | [] => .error .short
    | b :: r => .ok (b, r)
  else
    match data with
    | b0 :: b1 :: r => .ok ((b0 <<< 8) ||| b1, r)
    | _ => .error .short

/-- Length field decoding, source lines 68-84: `lengthBytes` is bits 4-3
of the header; zero means the length is bits 2-0 of the header, otherwise
that many big-endian length bytes follow. -/
def parseLen (typeField : Nat) (data : List Nat) : Except TLVErr (Nat × List Nat) :=
  let lengthBytes := (typeField >>> 3) &&& 3
  if lengthBytes == 0 then
    .ok (typeField &&& 7, data)
  else if data.length < lengthBytes then
    .error (.shortNeeded lengthBytes data.length)
  else
    .ok ((data.take lengthBytes).foldl (fun acc b => (acc <<< 8) ||| b) 0,
         data.drop lengthBytes)

/-- Header, identifier, length and value extraction of `TLVFromBytes`
(source lines 46-90), before the child-parsing loop. Returns the type,
identifier, value bytes and the remaining bytes after the value. -/
def parseHeader (data : List Nat) : Except TLVErr (TLVType × Nat × List Nat × List Nat) :=
  match data with
  | [] => .error .short
  | typeField :: rest1 =>
    match parseId typeField rest1 with
    | .error e => .error e
    | .ok (id, rest2) =>
      match parseLen typeField rest2 with
      | .error e => .error e
      | .ok (length, rest3) =>
        if rest3.length < length then .error (.shortNeeded length rest3.length)
        else .ok (TLVType.ofTag ((typeField >>> 6) &&& 3), id,
                  rest3.take length, rest3.drop length)

mutual

/-- Fuel-indexed form of `TLVFromBytes` (source lines 43-106). The fuel
only bounds the recursion depth; `TLVFromBytes` below supplies enough
fuel, and the stability lemmas show the result no longer depends on it. -/
def tlvFromBytesF : Nat → List Nat → Except TLVErr (TLV × List Nat)
  | 0, _ => .error .short
  | fuel + 1, data =>
    match parseHeader data with
    | .error e => .error e
    | .ok (ty, id, value, rest) =>
      if ty.isContainer then
        match tlvChildrenF fuel value with
        | .error e => .error e
        | .ok cs => .ok (.mk ty id value cs, rest)
      else
        .ok (.mk ty id value [], rest)

/-- Fuel-indexed form of the child-parsing loop of `TLVFromBytes`
(source lines 92-103): parse child TLVs from `childData` until it is
empty, propagating any child error. -/
def tlvChildrenF : Nat → List Nat → Except TLVErr (List TLV)
  | 0, _ => .error .short
  | fuel + 1, data =>
    if data.isEmpty then .ok []
    else
      match tlvFromBytesF fuel data with
      | .error e => .error e
      | .ok (t, rest) =>
        match tlvChildrenF fuel rest with
        | .error e => .error e
        | .ok cs => .ok (t :: cs)

end

/-- `TLVFromBytes` loads a TLV from the given bytes, returning the node
and the remaining bytes after it. `data.length + 1` fuel is sufficient
(each nesting level strictly shrinks the bytes; see the stability lemmas). -/
def TLVFromBytes (data : List Nat) : Except TLVErr (TLV × List Nat) :=
  tlvFromBytesF (data.length + 1) data

/-- The child-parsing loop of `TLVFromBytes` applied to a value slice:
parses children until the bytes are exhausted. -/
def TLVChildren (data : List Nat) : Except TLVErr (List TLV) :=
  tlvChildrenF (data.length + 2) data

/-- Shape of a decode result compared by the test suite: type, identifier,
value length, and the same for all children, recursively. -/
inductive TLVResult where
  | mk (type : TLVType) (identifier : Nat) (length : Nat) (children : List TLVResult)

mutual

/-- The shape of a decoded node, as the test's `compareTLV` observes it:
`Type`, `Identifier`, `len(Value)` and the children's shapes in order. -/
def TLV.toResult : TLV → TLVResult
  | .mk ty id v cs => .mk ty id v.length (TLV.toResultList cs)

def TLV.toResultList : List TLV → List TLVResult
  | [] => []
  | c :: cs => TLV.toResult c :: TLV.toResultList cs

end

/-- The 124-byte test input `testDataMultiObject` of `tlv_test.go`
(OMA-TS-LightweightM2M 6.4.3.2, multiple object instance). -/
def testDataMultiObject : List Nat := [
  0x08, 0x00, 0x79,
  0xC8, 0x00, 0x14, 0x4F, 0x70, 0x65, 0x6E, 0x20, 0x4D, 0x6F, 0x62,
  0x69, 0x6C, 0x65, 0x20, 0x41, 0x6C, 0x6C, 0x69, 0x61, 0x6E, 0x63, 0x65,
  0xC8, 0x01, 0x16, 0x4C, 0x69, 0x67, 0x68, 0x74, 0x77, 0x65, 0x69, 0x67,
  0x68, 0x74, 0x20, 0x4D, 0x32, 0x4D, 0x20, 0x43, 0x6C, 0x69, 0x65, 0x6E, 0x74,
  0xC8, 0x02, 0x09, 0x33, 0x34, 0x35, 0x30, 0x30, 0x30, 0x31, 0x32, 0x33,
  0xC3, 0x03, 0x31, 0x2E, 0x30,
  0x86, 0x06,
  0x41, 0x00, 0x01,
  0x41, 0x01, 0x05,
  0x88, 0x07, 0x08,
  0x42, 0x00, 0x0E, 0xD8,
  0x42, 0x01, 0x13, 0x88,
  0x87, 0x08,
  0x41, 0x00, 0x7D,
  0x42, 0x01, 0x03, 0x84,
  0xC1, 0x09, 0x64,
  0xC1, 0x0A, 0x0F,
  0x83, 0x0B,
  0x41, 0x00, 0x00,
  0xC4, 0x0D, 0x51, 0x82, 0x42, 0x8F,
  0xC6, 0x0E, 0x2B, 0x30, 0x32, 0x3A, 0x30, 0x30,
  0xC1, 0x10, 0x55]

/-- The decode shape `testResultMultiObject` expected by `tlv_test.go`:
one ObjectInstance, identifier 0, value length 121, with the 13 children
and their ResourceInstance grandchildren. -/
def testResultMultiObject : TLVResult :=
  .mk .objectInstance 0 121 [
    .mk .resource 0 20 [],
    .mk .resource 1 22 [],
    .mk .resource 2 9 [],
    .mk .resource 3 3 [],
    .mk .multiResource 6 6 [
      .mk .resourceInstance 0 1 [],
      .mk .resourceInstance 1 1 []],
    .mk .multiResource 7 8 [
      .mk .resourceInstance 0 2 [],
      .mk .resourceInstance 1 2 []],
    .mk .multiResource 8 7 [
      .mk .resourceInstance 0 1 [],
      .mk .resourceInstance 1 2 []],
    .mk .resource 9 1 [],
    .mk .resource 10 1 [],
    .mk .multiResource 11 3 [
      .mk .resourceInstance 0 1 []],
    .mk .resource 13 4 [],
    .mk .resource 14 6 [],
    .mk .resource 16 1 []]

mutual

/-- Invariant of every node of a decoded tree: a non-container node has
no children, and a container node's children are exactly the nodes the
child loop parses left-to-right from its value bytes (consuming them
fully, as the loop runs until the value slice is empty). -/
def TreeOK : TLV → Prop
  | .mk ty _ v cs =>
    (ty.isContainer = true → TLVChildren v = .ok cs) ∧
    (ty.isContainer = false → cs = []) ∧
    TreeOKList cs

def TreeOKList : List TLV → Prop
  | [] => True
  | c :: cs => TreeOK c ∧ TreeOKList cs

end

/-- The 2-bit wire tag of a type (inverse of `TLVType.ofTag`). -/
def TLVType.tag : TLVType → Nat
  | .objectInstance => 0
  | .resourceInstance => 1
  | .multiResource => 2
  | .resource => 3

mutual

/-- Modelled from the spec: the repository has no TLV encoder, so this
follows the spec's encoding paragraph. Serialize a node by emitting the
header with the smallest legal length-of-length, then identifier bytes
(1 if the identifier fits in 8 bits, else 2, big-endian), then length
bytes (big-endian), then the value bytes; for container nodes the value
is the concatenation of the encoded children. -/
def encodeTLV : TLV → List Nat
  | .mk ty id v cs =>
    let value := if ty.isContainer then encodeTLVList cs else v
    let len := value.length
    let idBit := if id < 256 then 0 else 32
    let idBytes := if id < 256 then [id] else [(id >>> 8) &&& 255, id &&& 255]
    if len ≤ 7 then
      ((ty.tag <<< 6) ||| idBit ||| len) :: (idBytes ++ value)
    else if len < 256 then
      ((ty.tag <<< 6) ||| idBit ||| (1 <<< 3)) :: (idBytes ++ len :: value)
    else if len < 65536 then
      ((ty.tag <<< 6) ||| idBit ||| (2 <<< 3)) ::
        (idBytes ++ (len >>> 8) :: (len &&& 255) :: value)
    else
      ((ty.tag <<< 6) ||| idBit ||| (3 <<< 3)) ::
        (idBytes ++ (len >>> 16) :: ((len >>> 8) &&& 255) :: (len &&& 255) :: value)

/-- Modelled from the spec: concatenation of the encodings of a list of
nodes, left to right. -/
def encodeTLVList : List TLV → List Nat
  | [] => []
  | c :: cs => encodeTLV c ++ encodeTLVList cs

end

/-- The `Store` interface of `store.go`: `Get` and `Put`, each returning
a Go `error`. State passing is explicit: an implementation acts on a
state of type `σ`. -/
structure Store (σ : Type) where
  get : σ → String → σ × Except String (List Nat)
  put : σ → String → List Nat → σ × Option String

/-- Errors of `storeObjectInstanceTLV`: the wrapped decode error
(`"Error decoding TLV: %w"`) or the root-type rejection
(`"Invalid TLV type - Expected 0 got %v"`). -/
inductive StoreTlvErr where
  | decodeError (e : TLVErr)
  | invalidType (got : TLVType)

/-- The canonical resource path
`fmt.Sprintf("/%v/%v/%v", objectID, objectIntance, resource)`. -/
def resourceKey (objectID : Int) (instanceID resourceID : Nat) : String :=
  "/" ++ toString objectID ++ "/" ++ toString instanceID ++ "/" ++ toString resourceID

/-- `storeObjectInstanceTLV` (source lines 335-356): decode the body,
require an ObjectInstance root, then `Put` each direct child of type
Resource under `/<objectID>/<root identifier>/<child identifier>`,
discarding each `Put`'s result, and return nil. -/
def storeObjectInstanceTLV {σ : Type} (S : Store σ) (s : σ) (objectID : Int)
    (data : List Nat) : σ × Option StoreTlvErr :=
  match TLVFromBytes data with
  | .error e => (s, some (.decodeError e))
  | .ok (tlvs, _) =>
    if tlvs.type = .objectInstance then
      (tlvs.children.foldl
        (fun st child =>
          if child.type = .resource then
            (S.put st (resourceKey objectID tlvs.identifier child.identifier)
              child.value).1
          else st) s,
       none)
    else
      (s, some (.invalidType tlvs.type))

/-- The request methods the handler distinguishes (`codes.DELETE`,
`codes.PUT`, anything else). -/
inductive CoapMethod where
  | DELETE
  | PUT
  | other

/-- The response codes the bootstrap object handler can set. -/
inductive CoapCode where
  | badRequest
  | deleted
  | unsupportedMediaType
  | internalServerError
  | changed
  | methodNotAllowed
deriving DecidableEq

/-- `bsHandleObjectID` (source lines 262-315). `pathObjectID` is the
result of extracting the Uri-Path and `strconv.Atoi` on it (`none` models
either failure; both respond 4.00). `contentFormat` is the result of
`r.Options.ContentFormat()` (`none` models its error). `body` is `none`
for a nil body, `some (.error ())` models an `ioutil.ReadAll` failure,
and `some (.ok data)` a fully read body. -/
def bsHandleObjectID {σ : Type} (S : Store σ) (s : σ) (pathObjectID : Option Int)
    (method : CoapMethod) (contentFormat : Option Nat)
    (body : Option (Except Unit (List Nat))) : σ × CoapCode :=
  match pathObjectID with
  | none => (s, .badRequest)
  | some objectID =>
    match method with
    | .DELETE => (s, .deleted)
    | .PUT =>
      if contentFormat ≠ some 99 then (s, .unsupportedMediaType)
      else
        match body with
        | none => (s, .badRequest)
        | some (.error _) => (s, .internalServerError)
        | some (.ok data) =>
          match storeObjectInstanceTLV S s objectID data with
          | (s', none) => (s', .changed)
          | (s', some _) => (s', .badRequest)
    | .other => (s, .methodNotAllowed)

/-- A store whose state is the list of `Put` calls received, in order:
used to observe exactly which writes a function performs. -/
def logStore : Store (List (String × List Nat)) where
  get := fun s _ => (s, .error "Not found")
  put := fun s k v => (s ++ [(k, v)], none)

/-- The `Put` calls `storeObjectInstanceTLV` performs for a root node
`t`: one per direct child of type Resource, in order. -/
def resourcePuts (objectID : Int) (t : TLV) : List (String × List Nat) :=
  t.children.filterMap fun c =>
    if c.type = .resource then
      some (resourceKey objectID t.identifier c.identifier, c.value)
    else none

/-- A store whose `Put` always fails (and changes nothing), as the
filesystem backend does on I/O errors. -/
def alwaysFailingStore : Store Unit where
  get := fun s _ => (s, .error "Not found")
  put := fun s _ _ => (s, some "Error writing to file")

/-- A parsed URL as `parseCoapURL` consumes it: scheme, host authority,
and the decoded query key/value pairs (Go's `url.URL.Query()`). -/
structure URL where
  scheme : String
  host : String
  query : List (String × String)
deriving DecidableEq

/-- `Query()[k]`: the values of query key `k`, in order. -/
def URL.queryValues (u : URL) (k : String) : List String :=
  (u.query.filter fun p => p.1 == k).map fun p => p.2

/-- The typed errors of `parseCoapURL`, one per `fmt.Errorf` site:
`"URL invalid: %v"`, `"URL is missing account query parameter - 'aid'"`,
`"URL must have exactly one account query parameter - 'aid'"`, and
`"URL scheme \"%v\" not supported"`. -/
inductive URLErr where
  | parseFailed (msg : String)
  | missingAid
  | multipleAid
  | badScheme (scheme : String)
deriving DecidableEq

/-- The validation steps of `parseCoapURL` (source lines 109-119) on a
successfully parsed URL: require at least one `aid` query value, then
exactly one, then require scheme `coaps`, and return the URL itself. -/
def validateCoapURL (u : URL) : Except URLErr URL :=
  if (u.queryValues "aid").length == 0 then .error .missingAid
  else if (u.queryValues "aid").length != 1 then .error .multipleAid
  else if u.scheme != "coaps" then .error (.badScheme u.scheme)
  else .ok u

/-- `parseCoapURL`'s handling of the `url.Parse` outcome: propagate a
parse failure as the wrapped error, then validate. -/
def parseCoapURLFrom (parsed : Except String URL) : Except URLErr URL :=
  match parsed with
  | .error e => .error (.parseFailed e)
  | .ok u => validateCoapURL u

/-- Splits `scheme://rest` at the first `://`. Helper for the spec-model
of `url.Parse`. -/
def splitScheme : List Char → Option (List Char × List Char)
  | [] => none
  | ':' :: '/' :: '/' :: rest => some ([], rest)
  | c :: rest =>
    match splitScheme rest with
    | some (sch, r) => some (c :: sch, r)
    | none => none

/-- Splits at the first occurrence of `sep`, if any. -/
def splitOnce (sep : Char) : List Char → List Char × Option (List Char)
  | [] => ([], none)
  | c :: rest =>
    if c = sep then ([], some rest)
    else
      let p := splitOnce sep rest
      (c :: p.1, p.2)

/-- Splits at every occurrence of `sep`. -/
def splitAll (sep : Char) : List Char → List (List Char)
  | [] => [[]]
  | c :: rest =>
    let r := splitAll sep rest
    if c = sep then [] :: r
    else
      match r with
      | [] => [[c]]
      | h :: t => (c :: h) :: t

/-- Modelled from the spec: the query-string decoding of Go's `net/url`
(an external collaborator of the design), restricted to `&`-separated
`k=v` pairs as used by the concrete scenarios. -/
def parseQueryModel (raw : List Char) : List (String × String) :=
  (splitAll '&' raw).filterMap fun pair =>
    match splitOnce '=' pair with
    | (k, some v) => some (String.mk k, String.mk v)
    | (_, none) => none

/-- Modelled from the spec: Go's `url.Parse` (an external collaborator),
restricted to absolute URLs of the shape `scheme://host?query` used by
the concrete scenarios. -/
def urlParseModel (s : String) : Except String URL :=
  match splitScheme s.toList with
  | none => .error "missing scheme"
  | some (sch, rest) =>
    match splitOnce '?' rest with
    | (host, none) => .ok ⟨String.mk sch, String.mk host, []⟩
    | (host, some rawQuery) =>
      .ok ⟨String.mk sch, String.mk host, parseQueryModel rawQuery⟩

/-- `parseCoapURL` converts a string into a URL and validates it. -/
def parseCoapURL (s : String) : Except URLErr URL :=
  parseCoapURLFrom (urlParseModel s)

/-- A TLS certificate as `CNFromCert` sees it: the DER certificate chain.
Only presence matters to the readiness predicates. -/
structure TLSCertificate where
  certificate : List (List Nat)

/-- The `Device` record (source lines 123-136): account id, the three
optional bootstrap fields and the three optional LWM2M fields. The store
handle is carried by the session functions explicitly and no modelled
claim reads it from the record. -/
structure Device where
  accountID : String
  bootstrapID : Option String
  bootstrapURL : Option URL
  bootstrapCert : Option TLSCertificate
  endpointName : Option String
  lwm2mURL : Option URL
  lwm2mCert : Option TLSCertificate

/-- `readyForBootstrap` (source lines 430-441): nil iff the three
bootstrap fields are present, else the error naming the first missing
field. -/
def Device.readyForBootstrap (d : Device) : Option String :=
  match d.bootstrapID with
  | none => some "BootstrapID missing"
  | some _ =>
    match d.bootstrapURL with
    | none => some "BootstrapURL missing"
    | some _ =>
      match d.bootstrapCert with
      | none => some "BootstrapCert missing"
      | some _ => none

/-- `readyForRegister` (source lines 443-454). -/
def Device.readyForRegister (d : Device) : Option String :=
  match d.endpointName with
  | none => some "EndpointName missing"
  | some _ =>
    match d.lwm2mURL with
    | none => some "Lwm2mURL missing"
    | some _ =>
      match d.lwm2mCert with
      | none => some "Lwm2mCert missing"
      | some _ => none

/-- `Device.Register` up to its first effect (source lines 139-143): the
readiness guard runs before anything else; the whole DTLS session that
follows is the abstract continuation `session`, which is reached only
when the guard passes. -/
def Device.Register (d : Device) (session : Device → Option String) :
    Option String :=
  match d.readyForRegister with
  | some e => some ("Unable to register: " ++ e)
  | none => session d

/-- `Device.Bootstrap` up to its first effect (source lines 200-204),
with the same shape as `Device.Register`. -/
def Device.Bootstrap (d : Device) (session : Device → Option String) :
    Option String :=
  match d.readyForBootstrap with
  | some e => some ("Unable to bootstrap: " ++ e)
  | none => session d

/-- The buffer heap used to model Go slice aliasing. Go byte slices
alias a backing buffer, and `store.go` deliberately copies on both
`Put` and `Get` so callers cannot mutate stored values. To state that,
buffers live in an explicit heap: a slice value is an index into
`Heap.bufs`, `make`+`copy` is `Heap.alloc` of the read contents, and a
caller mutating a slice in place is `Heap.write` at its index. -/
structure Heap where
  bufs : List (List Nat)

/-- The bytes a slice reference designates. -/
def Heap.read (h : Heap) (r : Nat) : List Nat :=
  h.bufs.getD r []

/-- `make([]byte, len)` + `copy`: a fresh buffer with the given contents,
returning its reference. -/
def Heap.alloc (h : Heap) (v : List Nat) : Heap × Nat :=
  (⟨h.bufs ++ [v]⟩, h.bufs.length)

/-- An in-place mutation of an existing buffer. -/
def Heap.write (h : Heap) (r : Nat) (v : List Nat) : Heap :=
  ⟨h.bufs.set r v⟩

/-- `MemStore.Put` (store.go lines 74-83): copy the caller's bytes into a
fresh buffer and bind the key to the copy. The map is an association list
where the newest binding wins, modelling the Go map update. -/
def MemStorePut (h : Heap) (m : List (String × Nat)) (k : String) (src : Nat) :
    Heap × List (String × Nat) :=
  let a := h.alloc (h.read src)
  (a.1, (k, a.2) :: m)

/-- `MemStore.Get` (store.go lines 60-71): on a hit, return a fresh copy
of the stored buffer; on a miss, the error `"Not found"`. -/
def MemStoreGet (h : Heap) (m : List (String × Nat)) (k : String) :
    Heap × Except String Nat :=
  match List.lookup k m with
  | some ref =>
    let a := h.alloc (h.read ref)
    (a.1, .ok a.2)
  | none => (h, .error "Not found")

/-- The observable outcome of a `Get`: the bytes of the returned slice,
or `none` on a miss. -/
def memStoreContent (h : Heap) (m : List (String × Nat)) (k : String) :
    Option (List Nat) :=
  match MemStoreGet h m k with
  | (h', .ok r) => some (h'.read r)
  | (_, .error _) => none

/-! ### Theorems -/

theorem parseId_length {typeField : Nat} {data : List Nat} {id : Nat} {rest : List Nat}
    (h : parseId typeField data = .ok (id, rest)) : rest.length + 1 ≤ data.length := by
  unfold parseId at h
  split at h
  · cases data with
    | nil => exact absurd h (by simp)
    | cons b r => simp_all
  · match data with
    | [] => exact absurd h (by simp)
    | [b0] => exact absurd h (by simp)
    | b0 :: b1 :: r => simp_all

theorem parseLen_length {typeField : Nat} {data : List Nat} {len : Nat} {rest : List Nat}
    (h : parseLen typeField data = .ok (len, rest)) : rest.length ≤ data.length := by
  simp only [parseLen] at h
  split at h
  · simp_all
  · split at h
    · exact absurd h (by simp)
    · simp only [Except.ok.injEq, Prod.mk.injEq] at h
      rw [← h.2]
      simp [List.length_drop]

theorem parseHeader_length {data : List Nat} {ty : TLVType} {id : Nat}
    {value rest : List Nat}
    (h : parseHeader data = .ok (ty, id, value, rest)) :
    value.length + rest.length + 2 ≤ data.length := by
  unfold parseHeader at h
  split at h
  · exact absurd h (by simp)
  · rename_i typeField rest1
    split at h
    · exact absurd h (by simp)
    · rename_i p i rest2 h1
      split at h
      · exact absurd h (by simp)
      · rename_i q len rest3 h2
        split at h
        · exact absurd h (by simp)
        · simp only [Except.ok.injEq, Prod.mk.injEq] at h
          obtain ⟨-, -, hv, hr⟩ := h
          have l1 := parseId_length h1
          have l2 := parseLen_length h2
          rw [← hv, ← hr]
          simp only [List.length_take, List.length_drop, List.length_cons]
          omega

theorem tlv_fuel_mono : ∀ fuel : Nat,
    (∀ g, fuel ≤ g → ∀ data r, tlvFromBytesF fuel data = .ok r →
      tlvFromBytesF g data = .ok r) ∧
    (∀ g, fuel ≤ g → ∀ data cs, tlvChildrenF fuel data = .ok cs →
      tlvChildrenF g data = .ok cs) := by
  intro fuel
  induction fuel with
  | zero =>
    constructor
    · intro g _ data r h; exact absurd h (by simp [tlvFromBytesF])
    · intro g _ data cs h; exact absurd h (by simp [tlvChildrenF])
  | succ f ih =>
    constructor
    · intro g hg data r h
      match g, hg with
      | g' + 1, hg =>
        have hg' : f ≤ g' := Nat.le_of_succ_le_succ hg
        rw [tlvFromBytesF] at h
        rw [tlvFromBytesF]
        cases hh : parseHeader data with
        | error e => rw [hh] at h; exact h
        | ok q =>
          obtain ⟨ty, id, value, rest⟩ := q
          rw [hh] at h
          simp only at h ⊢
          split at h
          · rename_i hcont
            rw [if_pos hcont]
            cases hc : tlvChildrenF f value with
            | error e => rw [hc] at h; exact absurd h (by simp)
            | ok cs =>
              rw [hc] at h
              rw [ih.2 g' hg' value cs hc]
              exact h
          · rename_i hcont
            rw [if_neg hcont]
            exact h
    · intro g hg data cs h
      match g, hg with
      | g' + 1, hg =>
        have hg' : f ≤ g' := Nat.le_of_succ_le_succ hg
        rw [tlvChildrenF] at h
        rw [tlvChildrenF]
        split at h
        · rename_i hemp
          rw [if_pos hemp]
          exact h
        · rename_i hemp
          rw [if_neg hemp]
          cases hp : tlvFromBytesF f data with
          | error e => rw [hp] at h; exact absurd h (by simp)
          | ok p =>
            obtain ⟨t, rest⟩ := p
            rw [hp] at h
            rw [ih.1 g' hg' data (t, rest) hp]
            simp only at h ⊢
            cases hc : tlvChildrenF f rest with
            | error e => rw [hc] at h; exact absurd h (by simp)
            | ok cs' =>
              rw [hc] at h
              rw [ih.2 g' hg' rest cs' hc]
              exact h

theorem tlvFromBytesF_ok_inv {f : Nat} {data : List Nat} {t : TLV} {rest : List Nat}
    (h : tlvFromBytesF f data = .ok (t, rest)) :
    ∃ f', f = f' + 1 ∧
      parseHeader data = .ok (t.type, t.identifier, t.value, rest) ∧
      (t.type.isContainer = true → tlvChildrenF f' t.value = .ok t.children) ∧
      (t.type.isContainer = false → t.children = []) := by
  match f with
  | 0 => exact absurd h (by simp [tlvFromBytesF])
  | f' + 1 =>
    refine ⟨f', rfl, ?_⟩
    rw [tlvFromBytesF] at h
    cases hh : parseHeader data with
    | error e => rw [hh] at h; exact absurd h (by simp)
    | ok q =>
      obtain ⟨ty, id, value, rest'⟩ := q
      rw [hh] at h
      simp only at h
      split at h
      · rename_i hcont
        cases hc : tlvChildrenF f' value with
        | error e => rw [hc] at h; exact absurd h (by simp)
        | ok cs =>
          rw [hc] at h
          simp only [Except.ok.injEq, Prod.mk.injEq] at h
          obtain ⟨ht, hr⟩ := h
          subst hr
          rw [← ht]
          simp only [TLV.type, TLV.identifier, TLV.value, TLV.children]
          exact ⟨trivial, fun _ => hc, fun hfalse => by rw [hcont] at hfalse; cases hfalse⟩
      · rename_i hcont
        simp only [Except.ok.injEq, Prod.mk.injEq] at h
        obtain ⟨ht, hr⟩ := h
        subst hr
        rw [← ht]
        simp only [TLV.type, TLV.identifier, TLV.value, TLV.children]
        refine ⟨trivial, fun htrue => ?_, fun _ => trivial⟩
        exact absurd htrue (by simpa using hcont)

theorem tlvFromBytesF_ok_rest {f : Nat} {data : List Nat} {t : TLV} {rest : List Nat}
    (h : tlvFromBytesF f data = .ok (t, rest)) : rest.length + 2 ≤ data.length := by
  obtain ⟨f', -, hph, -, -⟩ := tlvFromBytesF_ok_inv h
  have := parseHeader_length hph
  omega

theorem tlv_fuel_stable : ∀ fuel : Nat,
    (∀ data : List Nat, data.length + 1 ≤ fuel →
      tlvFromBytesF fuel data = TLVFromBytes data) ∧
    (∀ data : List Nat, data.length + 2 ≤ fuel →
      tlvChildrenF fuel data = TLVChildren data) := by
  intro fuel
  induction fuel using Nat.strong_induction_on with
  | _ fuel ih =>
    constructor
    · intro data hf
      match fuel, hf with
      | f + 1, hf =>
        rw [TLVFromBytes, tlvFromBytesF]
        conv_rhs => rw [tlvFromBytesF]
        cases hh : parseHeader data with
        | error e => rfl
        | ok q =>
          obtain ⟨ty, id, value, rest⟩ := q
          have hlen := parseHeader_length hh
          have hv1 : tlvChildrenF f value = TLVChildren value :=
            (ih f (Nat.lt_succ_self f)).2 value (by omega)
          have hv2 : tlvChildrenF data.length value = TLVChildren value :=
            (ih data.length (by omega)).2 value (by omega)
          show (if TLVType.isContainer ty = true then
              match tlvChildrenF f value with
              | Except.error e => Except.error e
              | Except.ok cs => Except.ok (TLV.mk ty id value cs, rest)
            else Except.ok (TLV.mk ty id value [], rest)) =
            (if TLVType.isContainer ty = true then
              match tlvChildrenF data.length value with
              | Except.error e => Except.error e
              | Except.ok cs => Except.ok (TLV.mk ty id value cs, rest)
            else Except.ok (TLV.mk ty id value [], rest))
          rw [hv1, hv2]
    · intro data hf
      match fuel, hf with
      | f + 1, hf =>
        rw [TLVChildren, tlvChildrenF]
        conv_rhs => rw [tlvChildrenF]
        cases hemp : data.isEmpty
        · simp only [Bool.false_eq_true, if_false]
          have hp1 : tlvFromBytesF f data = TLVFromBytes data :=
            (ih f (Nat.lt_succ_self f)).1 data (by omega)
          have hp2 : tlvFromBytesF (data.length + 1) data = TLVFromBytes data := rfl
          rw [hp1, hp2]
          cases hp : TLVFromBytes data with
          | error e => rfl
          | ok p =>
            obtain ⟨t, rest⟩ := p
            have hrest : rest.length + 2 ≤ data.length := tlvFromBytesF_ok_rest hp
            simp only
            have hc1 : tlvChildrenF f rest = TLVChildren rest :=
              (ih f (Nat.lt_succ_self f)).2 rest (by omega)
            have hc2 : tlvChildrenF (data.length + 1) rest = TLVChildren rest :=
              (ih (data.length + 1) (by omega)).2 rest (by omega)
            rw [hc1, hc2]
        · simp [hemp]

/-- One-step unfolding of `TLVFromBytes`, fuel-free: header parse, then
for container types the child loop over the value bytes. -/
theorem TLVFromBytes_eq (data : List Nat) :
    TLVFromBytes data =
      match parseHeader data with
      | .error e => .error e
      | .ok (ty, id, value, rest) =>
        if ty.isContainer then
          match TLVChildren value with
          | .error e => .error e
          | .ok cs => .ok (.mk ty id value cs, rest)
        else
          .ok (.mk ty id value [], rest) := by
  rw [TLVFromBytes, tlvFromBytesF]
  cases hh : parseHeader data with
  | error e => rfl
  | ok q =>
    obtain ⟨ty, id, value, rest⟩ := q
    have hlen := parseHeader_length hh
    have hv : tlvChildrenF data.length value = TLVChildren value :=
      (tlv_fuel_stable data.length).2 value (by omega)
    show (if TLVType.isContainer ty = true then
        match tlvChildrenF data.length value with
        | Except.error e => Except.error e
        | Except.ok cs => Except.ok (TLV.mk ty id value cs, rest)
      else Except.ok (TLV.mk ty id value [], rest)) =
      (if TLVType.isContainer ty = true then
        match TLVChildren value with
        | Except.error e => Except.error e
        | Except.ok cs => Except.ok (TLV.mk ty id value cs, rest)
      else Except.ok (TLV.mk ty id value [], rest))
    rw [hv]

/-- One-step unfolding of the child loop, fuel-free: parse one child,
then recurse on the remaining bytes of the value slice. -/
theorem TLVChildren_eq (data : List Nat) :
    TLVChildren data =
      if data.isEmpty then .ok []
      else
        match TLVFromBytes data with
        | .error e => .error e
        | .ok (t, rest) =>
          match TLVChildren rest with
          | .error e => .error e
          | .ok cs => .ok (t :: cs) := by
  rw [TLVChildren, tlvChildrenF]
  cases hemp : data.isEmpty
  · simp only [Bool.false_eq_true, if_false]
    have hp : tlvFromBytesF (data.length + 1) data = TLVFromBytes data := rfl
    rw [hp]
    cases hp2 : TLVFromBytes data with
    | error e => rfl
    | ok p =>
      obtain ⟨t, rest⟩ := p
      have hrest : rest.length + 2 ≤ data.length := tlvFromBytesF_ok_rest hp2
      have hc : tlvChildrenF (data.length + 1) rest = TLVChildren rest :=
        (tlv_fuel_stable (data.length + 1)).2 rest (by omega)
      show (match tlvChildrenF (data.length + 1) rest with
        | Except.error e => Except.error e
        | Except.ok cs => Except.ok (t :: cs)) =
        (match TLVChildren rest with
        | Except.error e => Except.error e
        | Except.ok cs => Except.ok (t :: cs))
      rw [hc]
  · simp [hemp]

/-- A successful fuel-indexed parse agrees with `TLVFromBytes`. -/
theorem tlvFromBytesF_ok_eq {f : Nat} {data : List Nat} {r : TLV × List Nat}
    (h : tlvFromBytesF f data = .ok r) : TLVFromBytes data = .ok r := by
  rcases Nat.le_total f (data.length + 1) with hle | hle
  · exact (tlv_fuel_mono f).1 (data.length + 1) hle data r h
  · rw [← (tlv_fuel_stable f).1 data (by omega)]
    exact h

/-- A successful fuel-indexed child loop agrees with `TLVChildren`. -/
theorem tlvChildrenF_ok_eq {f : Nat} {data : List Nat} {cs : List TLV}
    (h : tlvChildrenF f data = .ok cs) : TLVChildren data = .ok cs := by
  rcases Nat.le_total f (data.length + 2) with hle | hle
  · exact (tlv_fuel_mono f).2 (data.length + 2) hle data cs h
  · rw [← (tlv_fuel_stable f).2 data (by omega)]
    exact h

/-- C1: decoding the 124-byte canonical OMA multiple-object-instance
sample with `TLVFromBytes` succeeds, returns a single root ObjectInstance
with identifier 0 and value length 121 whose direct children and
grandchildren have exactly the expected (type, identifier, value-length)
tuples, and leaves an empty remaining-bytes slice. -/
theorem tlv_decodes_canonical_multi_object_sample :
    (TLVFromBytes testDataMultiObject).toOption.map
        (fun p => (p.1.toResult, p.2)) =
      some (testResultMultiObject, []) := by
  set_option maxRecDepth 8000 in rfl

theorem tlvF_treeOK : ∀ fuel : Nat,
    (∀ data t rest, tlvFromBytesF fuel data = .ok (t, rest) → TreeOK t) ∧
    (∀ data cs, tlvChildrenF fuel data = .ok cs → TreeOKList cs) := by
  intro fuel
  induction fuel with
  | zero =>
    constructor
    · intro data t rest h; exact absurd h (by simp [tlvFromBytesF])
    · intro data cs h; exact absurd h (by simp [tlvChildrenF])
  | succ f ih =>
    constructor
    · intro data t rest h
      rw [tlvFromBytesF] at h
      cases hh : parseHeader data with
      | error e => rw [hh] at h; exact absurd h (by simp)
      | ok q =>
        obtain ⟨ty, id, value, rest'⟩ := q
        rw [hh] at h
        simp only at h
        split at h
        · rename_i hcont
          cases hc : tlvChildrenF f value with
          | error e => rw [hc] at h; exact absurd h (by simp)
          | ok cs =>
            rw [hc] at h
            simp only [Except.ok.injEq, Prod.mk.injEq] at h
            obtain ⟨ht, -⟩ := h
            rw [← ht]
            refine ⟨fun _ => tlvChildrenF_ok_eq hc, fun hfalse => ?_, ?_⟩
            · rw [hcont] at hfalse; cases hfalse
            · exact ih.2 value cs hc
        · rename_i hcont
          simp only [Except.ok.injEq, Prod.mk.injEq] at h
          obtain ⟨ht, -⟩ := h
          rw [← ht]
          refine ⟨fun htrue => absurd htrue (by simpa using hcont), fun _ => rfl, ?_⟩
          exact trivial
    · intro data cs h
      rw [tlvChildrenF] at h
      split at h
      · simp only [Except.ok.injEq] at h
        rw [← h]
        exact trivial
      · cases hp : tlvFromBytesF f data with
        | error e => rw [hp] at h; exact absurd h (by simp)
        | ok p =>
          obtain ⟨t, rest⟩ := p
          rw [hp] at h
          simp only at h
          cases hc : tlvChildrenF f rest with
          | error e => rw [hc] at h; exact absurd h (by simp)
          | ok cs' =>
            rw [hc] at h
            simp only [Except.ok.injEq] at h
            rw [← h]
            exact ⟨ih.1 data t rest hp, ih.2 rest cs' hc⟩

/-- C4 counterexample: the decoder accepts non-minimally encoded children
(here a Resource of value length 1 carried with an explicit length byte,
`C8 05 01 AA`), but re-encoding uses the smallest legal header, so the
concatenated re-encoding of the container's children (`C1 05 AA`) differs
from the container's value bytes. -/
theorem tlv_children_reencoding_differs :
    TLVFromBytes [0x04, 0x00, 0xC8, 0x05, 0x01, 0xAA] =
      .ok (.mk .objectInstance 0 [0xC8, 0x05, 0x01, 0xAA]
             [.mk .resource 5 [0xAA] []], []) ∧
    encodeTLVList [TLV.mk .resource 5 [0xAA] []] ≠ [0xC8, 0x05, 0x01, 0xAA] := by
  constructor
  · rfl
  · decide

/-- C4 (amended): every node of a tree returned by a successful
`TLVFromBytes` call has children only if it is a container (ObjectInstance
or MultiResource); Resource and ResourceInstance nodes have no children;
and a container's children are exactly the nodes parsed left-to-right
from its value bytes with those bytes fully consumed. (The further claim
that the concatenation of the children's minimal re-encodings equals the
container's value bytes is false; see the counterexample.) -/
theorem tlv_decode_tree_invariant {data : List Nat} {t : TLV} {rest : List Nat}
    (h : TLVFromBytes data = .ok (t, rest)) : TreeOK t :=
  (tlvF_treeOK (data.length + 1)).1 data t rest h

/-- Witness for C4's amended theorem at the concrete Resource-only input
`C3 03 31 2E 30`. -/
theorem tlv_decode_tree_invariant_witness :
    TreeOK (TLV.mk .resource 3 [0x31, 0x2E, 0x30] []) :=
  @tlv_decode_tree_invariant [0xC3, 0x03, 0x31, 0x2E, 0x30]
    (TLV.mk .resource 3 [0x31, 0x2E, 0x30] []) [] (by rfl)

theorem parseId_err_shape {typeField : Nat} {data : List Nat} {e : TLVErr}
    (h : parseId typeField data = .error e) : e = .short := by
  unfold parseId at h
  split at h
  · cases data <;> simp_all
  · match data with
    | [] => simp_all
    | [b0] => simp_all
    | b0 :: b1 :: r => simp_all

theorem parseLen_err_shape {typeField : Nat} {data : List Nat} {e : TLVErr}
    (h : parseLen typeField data = .error e) :
    ∃ needed got, e = .shortNeeded needed got ∧ got < needed := by
  simp only [parseLen] at h
  split at h
  · simp_all
  · split at h
    · rename_i hlt
      simp only [Except.error.injEq] at h
      exact ⟨_, _, h.symm, hlt⟩
    · simp_all

theorem parseHeader_err_shape {data : List Nat} {e : TLVErr}
    (h : parseHeader data = .error e) :
    e = .short ∨ ∃ needed got, e = .shortNeeded needed got ∧ got < needed := by
  unfold parseHeader at h
  split at h
  · simp only [Except.error.injEq] at h
    exact Or.inl h.symm
  · rename_i typeField rest1
    split at h
    · rename_i e1 h1
      simp only [Except.error.injEq] at h
      subst h
      exact Or.inl (parseId_err_shape h1)
    · rename_i p i rest2 h1
      split at h
      · rename_i e2 h2
        simp only [Except.error.injEq] at h
        subst h
        exact Or.inr (parseLen_err_shape h2)
      · rename_i q len rest3 h2
        split at h
        · rename_i hlt
          simp only [Except.error.injEq] at h
          exact Or.inr ⟨_, _, h.symm, hlt⟩
        · simp_all

theorem tlvF_err_shape : ∀ fuel : Nat,
    (∀ data e, tlvFromBytesF fuel data = .error e →
      e = .short ∨ ∃ needed got, e = .shortNeeded needed got ∧ got < needed) ∧
    (∀ data e, tlvChildrenF fuel data = .error e →
      e = .short ∨ ∃ needed got, e = .shortNeeded needed got ∧ got < needed) := by
  intro fuel
  induction fuel with
  | zero =>
    constructor
    · intro data e h
      rw [tlvFromBytesF] at h
      simp only [Except.error.injEq] at h
      exact Or.inl h.symm
    · intro data e h
      rw [tlvChildrenF] at h
      simp only [Except.error.injEq] at h
      exact Or.inl h.symm
  | succ f ih =>
    constructor
    · intro data e h
      rw [tlvFromBytesF] at h
      cases hh : parseHeader data with
      | error e' =>
        rw [hh] at h
        simp only [Except.error.injEq] at h
        subst h
        exact parseHeader_err_shape hh
      | ok q =>
        obtain ⟨ty, id, value, rest⟩ := q
        rw [hh] at h
        simp only at h
        split at h
        · cases hc : tlvChildrenF f value with
          | error e' =>
            rw [hc] at h
            simp only [Except.error.injEq] at h
            subst h
            exact ih.2 value _ hc
          | ok cs => rw [hc] at h; exact absurd h (by simp)
        · exact absurd h (by simp)
    · intro data e h
      rw [tlvChildrenF] at h
      split at h
      · exact absurd h (by simp)
      · cases hp : tlvFromBytesF f data with
        | error e' =>
          rw [hp] at h
          simp only [Except.error.injEq] at h
          subst h
          exact ih.1 data _ hp
        | ok p =>
          obtain ⟨t, rest⟩ := p
          rw [hp] at h
          simp only at h
          cases hc : tlvChildrenF f rest with
          | error e' =>
            rw [hc] at h
            simp only [Except.error.injEq] at h
            subst h
            exact ih.2 rest _ hc
          | ok cs => rw [hc] at h; exact absurd h (by simp)

/-- C5 counterexample: at `04 00 41 00 05 FF` the first child parse of the
ObjectInstance leaves the byte `FF` unconsumed inside the parent's value
range, and the decoder then fails — but with the plain short-input error
(the leftover byte is handed to another child parse, which runs out of
identifier bytes), not with any distinct trailing-garbage error kind; no
such kind exists in the decoder. -/
theorem tlv_trailing_bytes_yield_short_error :
    TLVFromBytes [0x04, 0x00, 0x41, 0x00, 0x05, 0xFF] = .error .short ∧
    TLVErr.isShort .short = true := by
  constructor
  · rfl
  · rfl

/-- C5 (amended): every failure of `TLVFromBytes` is a short-input error:
either the bare "Data short" error or a "Needed n, got g" error with
`g < n` (fewer bytes remaining than the identifier, length or value field
demands). There is no distinct `TrailingGarbageInChildren` failure:
leftover bytes inside a parent's value are parsed as further children,
and any failure there is again a short-input error. -/
theorem tlv_errors_are_short_input {data : List Nat} {e : TLVErr}
    (h : TLVFromBytes data = .error e) :
    e.isShort = true ∧
      (e = .short ∨ ∃ needed got, e = .shortNeeded needed got ∧ got < needed) := by
  refine ⟨by cases e <;> rfl, ?_⟩
  exact (tlvF_err_shape (data.length + 1)).1 data e h

/-- Witness for C5's amended theorem at the truncated header `C8 00`
(which demands one length byte and has none). -/
theorem tlv_errors_are_short_input_witness :
    (TLVErr.shortNeeded 1 0).isShort = true ∧
      (TLVErr.shortNeeded 1 0 = .short ∨
        ∃ needed got, TLVErr.shortNeeded 1 0 = .shortNeeded needed got ∧ got < needed) :=
  @tlv_errors_are_short_input [0xC8, 0x00] (TLVErr.shortNeeded 1 0) (by rfl)

theorem parseId_take {typeField : Nat} {data : List Nat} {id : Nat} {rest : List Nat}
    (h : parseId typeField data = .ok (id, rest)) (m : Nat) (hm : m < data.length) :
    (∃ e, parseId typeField (data.take m) = .error e) ∨
    (∃ m', parseId typeField (data.take m) = .ok (id, rest.take m') ∧
      m' < rest.length) := by
  unfold parseId at h ⊢
  split at h
  · rename_i hbit
    match data, h with
    | b :: r, h =>
      simp only [Except.ok.injEq, Prod.mk.injEq] at h
      obtain ⟨hb, hr⟩ := h
      subst hb; subst hr
      match m with
      | 0 => exact Or.inl ⟨.short, by rw [if_pos hbit]; rfl⟩
      | m' + 1 =>
        rw [List.take_succ_cons]
        rw [if_pos hbit]
        refine Or.inr ⟨m', rfl, ?_⟩
        simp only [List.length_cons] at hm
        omega
  · rename_i hbit
    match data, h with
    | b0 :: b1 :: r, h =>
      simp only [Except.ok.injEq, Prod.mk.injEq] at h
      obtain ⟨hb, hr⟩ := h
      subst hb; subst hr
      match m with
      | 0 => exact Or.inl ⟨.short, by rw [if_neg hbit]; rfl⟩
      | 1 => exact Or.inl ⟨.short, by rw [List.take_succ_cons, List.take_zero]; rw [if_neg hbit]⟩
      | m' + 2 =>
        rw [List.take_succ_cons, List.take_succ_cons]
        rw [if_neg hbit]
        refine Or.inr ⟨m', rfl, ?_⟩
        simp only [List.length_cons] at hm
        omega

theorem parseLen_take {typeField : Nat} {data : List Nat} {len : Nat} {rest : List Nat}
    (h : parseLen typeField data = .ok (len, rest)) (m : Nat) (hm : m < data.length) :
    (∃ e, parseLen typeField (data.take m) = .error e) ∨
    (∃ m', parseLen typeField (data.take m) = .ok (len, rest.take m') ∧
      m' < rest.length) := by
  simp only [parseLen] at h ⊢
  split at h
  · rename_i hz
    simp only [Except.ok.injEq, Prod.mk.injEq] at h
    obtain ⟨hl, hr⟩ := h
    subst hl; subst hr
    rw [if_pos hz]
    exact Or.inr ⟨m, rfl, hm⟩
  · rename_i hz
    split at h
    · exact absurd h (by simp)
    · rename_i hge
      simp only [Except.ok.injEq, Prod.mk.injEq] at h
      obtain ⟨hl, hr⟩ := h
      rw [if_neg hz]
      by_cases hlt : m < (typeField >>> 3) &&& 3
      · refine Or.inl ⟨.shortNeeded ((typeField >>> 3) &&& 3) (data.take m).length, ?_⟩
        rw [if_pos ?_]
        rw [List.length_take]
        omega
      · rw [if_neg ?_]
        · refine Or.inr ⟨m - ((typeField >>> 3) &&& 3), ?_, ?_⟩
          · rw [List.take_take, List.drop_take]
            rw [Nat.min_eq_left (by omega)]
            rw [← hl, ← hr]
          · rw [← hr]
            simp only [List.length_drop]
            omega
        · rw [List.length_take]
          omega

theorem parseHeader_take_err {data : List Nat} {ty : TLVType} {id : Nat}
    {value : List Nat}
    (h : parseHeader data = .ok (ty, id, value, [])) (k : Nat)
    (hk : k < data.length) :
    ∃ e, parseHeader (data.take k) = .error e := by
  unfold parseHeader at h
  split at h
  · exact absurd h (by simp)
  · rename_i typeField rest1
    split at h
    · exact absurd h (by simp)
    · rename_i p i rest2 h1
      split at h
      · exact absurd h (by simp)
      · rename_i q len rest3 h2
        split at h
        · exact absurd h (by simp)
        · rename_i hge
          simp only [Except.ok.injEq, Prod.mk.injEq] at h
          obtain ⟨-, -, hv, hr⟩ := h
          have hlen3 : rest3.length = len := by
            have := congrArg List.length hr
            simp only [List.length_drop, List.length_nil] at this
            omega
          match k with
          | 0 => exact ⟨.short, rfl⟩
          | m + 1 =>
            simp only [List.length_cons] at hk
            rw [List.take_succ_cons]
            unfold parseHeader
            show ∃ e,
              (match parseId typeField (List.take m rest1) with
                | .error e => .error e
                | .ok (id, rest2) =>
                  match parseLen typeField rest2 with
                  | .error e => .error e
                  | .ok (length, rest3) =>
                    if rest3.length < length then
                      Except.error (.shortNeeded length rest3.length)
                    else
                      Except.ok (TLVType.ofTag ((typeField >>> 6) &&& 3), id,
                        rest3.take length, rest3.drop length)) = Except.error e
            rcases parseId_take h1 m (by omega) with ⟨e1, he1⟩ | ⟨m2, he2, hm2⟩
            · rw [he1]
              exact ⟨e1, rfl⟩
            · rw [he2]
              show ∃ e,
                (match parseLen typeField (List.take m2 rest2) with
                  | .error e => .error e
                  | .ok (length, rest3) =>
                    if rest3.length < length then
                      Except.error (.shortNeeded length rest3.length)
                    else
                      Except.ok (TLVType.ofTag ((typeField >>> 6) &&& 3), i,
                        rest3.take length, rest3.drop length)) = Except.error e
              rcases parseLen_take h2 m2 hm2 with ⟨e2, he3⟩ | ⟨m3, he4, hm3⟩
              · rw [he3]
                exact ⟨e2, rfl⟩
              · rw [he4]
                have hlt : (rest3.take m3).length < len := by
                  rw [List.length_take]
                  omega
                show ∃ e,
                  (if (List.take m3 rest3).length < len then
                    Except.error (TLVErr.shortNeeded len (List.take m3 rest3).length)
                  else
                    Except.ok (TLVType.ofTag ((typeField >>> 6) &&& 3), i,
                      (List.take m3 rest3).take len,
                      (List.take m3 rest3).drop len)) = Except.error e
                rw [if_pos hlt]
                exact ⟨_, rfl⟩

/-- C3: for every byte sequence that is the valid encoding of a single
TLV node (a full-consumption `TLVFromBytes` success) and every strict
prefix of it, `TLVFromBytes` on the truncated input returns a short-input
error rather than a node; in particular `TLVFromBytes` on `C8 00` returns
the short-input error "Needed 1, got 0" for the missing length byte. -/
theorem tlv_truncated_encoding_is_short :
    (∀ (bs : List Nat) (t : TLV) (k : Nat),
      TLVFromBytes bs = .ok (t, []) → k < bs.length →
      ∃ e, TLVFromBytes (bs.take k) = .error e ∧ e.isShort = true) ∧
    TLVFromBytes [0xC8, 0x00] = .error (.shortNeeded 1 0) := by
  constructor
  · intro bs t k hok hk
    have hinv := @tlvFromBytesF_ok_inv (bs.length + 1) bs t [] hok
    obtain ⟨f', -, hph, -, -⟩ := hinv
    obtain ⟨e, he⟩ := parseHeader_take_err hph k hk
    refine ⟨e, ?_, by cases e <;> rfl⟩
    rw [TLVFromBytes_eq, he]
  · rfl

/-- Witness for C3 at the 5-byte Resource encoding `C3 03 31 2E 30`,
truncated to its first two bytes. -/
theorem tlv_truncated_encoding_is_short_witness :
    ∃ e, TLVFromBytes ([0xC3, 0x03, 0x31, 0x2E, 0x30].take 2) = .error e ∧
      e.isShort = true :=
  tlv_truncated_encoding_is_short.1 [0xC3, 0x03, 0x31, 0x2E, 0x30]
    (.mk .resource 3 [0x31, 0x2E, 0x30] []) 2 (by rfl) (by decide)

theorem logStore_foldl (objectID : Int) (inst : Nat) (cs : List TLV)
    (s : List (String × List Nat)) :
    cs.foldl
      (fun st child =>
        if child.type = .resource then
          (logStore.put st (resourceKey objectID inst child.identifier)
            child.value).1
        else st) s =
    s ++ cs.filterMap (fun c =>
      if c.type = .resource then
        some (resourceKey objectID inst c.identifier, c.value)
      else none) := by
  induction cs generalizing s with
  | nil => simp
  | cons c cs ih =>
    rw [List.foldl_cons, List.filterMap_cons]
    by_cases hc : c.type = .resource
    · rw [if_pos hc, if_pos hc]
      rw [ih]
      simp [logStore, List.append_assoc]
    · rw [if_neg hc, if_neg hc]
      rw [ih]

/-- C2: with the write-logging store, `storeObjectInstanceTLV` on a body
whose decoded root is an ObjectInstance appends exactly one `Put` of
`/<objectID>/<root identifier>/<child identifier>` with the child's value
bytes per direct child of type Resource (and nothing for children of any
other type) and returns nil; on a root of any other type it returns an
error, performs no writes, and the PUT handler responds 4.00 Bad Request. -/
theorem store_object_instance_puts_resources :
    ∀ (objectID : Int) (data : List Nat) (t : TLV) (rest : List Nat)
      (s : List (String × List Nat)),
      TLVFromBytes data = .ok (t, rest) →
      ((t.type = .objectInstance →
          storeObjectInstanceTLV logStore s objectID data =
            (s ++ resourcePuts objectID t, none)) ∧
       (t.type ≠ .objectInstance →
          storeObjectInstanceTLV logStore s objectID data =
            (s, some (.invalidType t.type)) ∧
          (bsHandleObjectID logStore s (some objectID) .PUT (some 99)
              (some (.ok data))).2 = .badRequest)) := by
  intro objectID data t rest s hok
  constructor
  · intro hty
    unfold storeObjectInstanceTLV
    rw [hok]
    simp only [if_pos hty]
    rw [logStore_foldl]
    rfl
  · intro hty
    have hst : storeObjectInstanceTLV logStore s objectID data =
        (s, some (.invalidType t.type)) := by
      unfold storeObjectInstanceTLV
      rw [hok]
      simp only [if_neg hty]
    refine ⟨hst, ?_⟩
    unfold bsHandleObjectID
    simp only
    rw [if_neg (by simp)]
    rw [hst]

/-- Witness for C2 at the concrete body `03 00 C1 05 AA` (ObjectInstance
id 0 with a single Resource child id 5, value `AA`) and object id 1. -/
theorem store_object_instance_puts_resources_witness :
    ((TLV.mk .objectInstance 0 [0xC1, 0x05, 0xAA]
        [.mk .resource 5 [0xAA] []]).type = .objectInstance →
      storeObjectInstanceTLV logStore [] 1 [0x03, 0x00, 0xC1, 0x05, 0xAA] =
        ([] ++ resourcePuts 1 (TLV.mk .objectInstance 0 [0xC1, 0x05, 0xAA]
          [.mk .resource 5 [0xAA] []]), none)) ∧
    ((TLV.mk .objectInstance 0 [0xC1, 0x05, 0xAA]
        [.mk .resource 5 [0xAA] []]).type ≠ .objectInstance →
      storeObjectInstanceTLV logStore [] 1 [0x03, 0x00, 0xC1, 0x05, 0xAA] =
        ([], some (.invalidType (TLV.mk .objectInstance 0 [0xC1, 0x05, 0xAA]
          [.mk .resource 5 [0xAA] []]).type)) ∧
      (bsHandleObjectID logStore [] (some 1) .PUT (some 99)
          (some (.ok [0x03, 0x00, 0xC1, 0x05, 0xAA]))).2 = .badRequest) :=
  store_object_instance_puts_resources 1 [0x03, 0x00, 0xC1, 0x05, 0xAA]
    (.mk .objectInstance 0 [0xC1, 0x05, 0xAA] [.mk .resource 5 [0xAA] []])
    [] [] (by rfl)

/-- C7: for every DELETE request whose Uri-Path parses as an integer
object id, the bootstrap object handler responds 2.02 Deleted and leaves
the store state exactly as it was, for every store implementation (so no
`Put`, removal, or any other store operation occurs). -/
theorem bs_delete_responds_deleted_untouched_store :
    ∀ (σ : Type) (S : Store σ) (s : σ) (objectID : Int)
      (contentFormat : Option Nat) (body : Option (Except Unit (List Nat))),
      bsHandleObjectID S s (some objectID) .DELETE contentFormat body =
        (s, .deleted) := by
  intro σ S s objectID contentFormat body
  rfl

/-- C10: `storeObjectInstanceTLV` discards the result of every
`Store.Put` call: for every store implementation — including ones whose
`Put` fails on some or all keys — a well-formed ObjectInstance body
yields a nil error, and the bootstrap PUT handler therefore responds
2.04 Changed. -/
theorem store_object_instance_ignores_put_errors :
    ∀ (σ : Type) (S : Store σ) (s : σ) (objectID : Int) (data : List Nat)
      (t : TLV) (rest : List Nat),
      TLVFromBytes data = .ok (t, rest) → t.type = .objectInstance →
      (storeObjectInstanceTLV S s objectID data).2 = none ∧
      (bsHandleObjectID S s (some objectID) .PUT (some 99)
          (some (.ok data))).2 = .changed := by
  intro σ S s objectID data t rest hok hty
  have hsnd : (storeObjectInstanceTLV S s objectID data).2 = none := by
    unfold storeObjectInstanceTLV
    rw [hok]
    simp only [if_pos hty]
  refine ⟨hsnd, ?_⟩
  unfold bsHandleObjectID
  simp only
  rw [if_neg (by simp)]
  cases hres : storeObjectInstanceTLV S s objectID data with
  | mk s' r =>
    rw [hres] at hsnd
    simp only at hsnd
    subst hsnd
    rfl

/-- Witness for C10 with the always-failing store at the concrete body
`03 00 C1 05 AA` and object id 1. -/
theorem store_object_instance_ignores_put_errors_witness :
    (storeObjectInstanceTLV alwaysFailingStore () 1
        [0x03, 0x00, 0xC1, 0x05, 0xAA]).2 = none ∧
    (bsHandleObjectID alwaysFailingStore () (some 1) .PUT (some 99)
        (some (.ok [0x03, 0x00, 0xC1, 0x05, 0xAA]))).2 = .changed :=
  store_object_instance_ignores_put_errors Unit alwaysFailingStore () 1
    [0x03, 0x00, 0xC1, 0x05, 0xAA]
    (.mk .objectInstance 0 [0xC1, 0x05, 0xAA] [.mk .resource 5 [0xAA] []])
    [] (by rfl) (by rfl)

/-- C6: `parseCoapURL` accepts a parsed URL exactly when its scheme is
`coaps` and its query has exactly one `aid` value, returning the URL
itself; any other scheme, a missing `aid`, or more than one `aid` yields
a typed error. Concretely, `coaps://bs.example.net:5684?aid=acct-42`
succeeds with host `bs.example.net:5684` and account `acct-42`, and
`http://x?aid=a` fails with the wrong-scheme error. -/
theorem parse_coap_url_spec :
    (∀ u : URL,
      (parseCoapURLFrom (.ok u) = .ok u ↔
        u.scheme = "coaps" ∧ (u.queryValues "aid").length = 1) ∧
      (u.scheme ≠ "coaps" ∨ (u.queryValues "aid").length ≠ 1 →
        ∃ e, parseCoapURLFrom (.ok u) = .error e)) ∧
    parseCoapURL "coaps://bs.example.net:5684?aid=acct-42" =
      .ok ⟨"coaps", "bs.example.net:5684", [("aid", "acct-42")]⟩ ∧
    (URL.mk "coaps" "bs.example.net:5684" [("aid", "acct-42")]).host =
      "bs.example.net:5684" ∧
    (URL.mk "coaps" "bs.example.net:5684" [("aid", "acct-42")]).queryValues
      "aid" = ["acct-42"] ∧
    parseCoapURL "http://x?aid=a" = .error (.badScheme "http") := by
  refine ⟨?_, by rfl, by rfl, by decide, by rfl⟩
  intro u
  have hfrom : parseCoapURLFrom (.ok u) = validateCoapURL u := rfl
  constructor
  · rw [hfrom]
    constructor
    · intro h
      unfold validateCoapURL at h
      split at h
      · exact absurd h (by simp)
      · split at h
        · exact absurd h (by simp)
        · split at h
          · exact absurd h (by simp)
          · rename_i hz ho hs
            simp only [bne_iff_ne, ne_eq, Decidable.not_not] at hs ho
            exact ⟨hs, ho⟩
    · intro hu
      obtain ⟨hs, hone⟩ := hu
      unfold validateCoapURL
      rw [if_neg (by simp [hone])]
      rw [if_neg (by simp [hone])]
      rw [if_neg (by simp [hs])]
  · intro h
    rw [hfrom]
    unfold validateCoapURL
    by_cases hz : ((u.queryValues "aid").length == 0) = true
    · rw [if_pos hz]
      exact ⟨.missingAid, rfl⟩
    · rw [if_neg hz]
      by_cases ho : ((u.queryValues "aid").length != 1) = true
      · rw [if_pos ho]
        exact ⟨.multipleAid, rfl⟩
      · rw [if_neg ho]
        have hone : (u.queryValues "aid").length = 1 := by
          simp only [bne_iff_ne, ne_eq, Decidable.not_not] at ho
          exact ho
        have hs : u.scheme ≠ "coaps" := by
          rcases h with h | h
          · exact h
          · exact absurd hone h
        rw [if_pos (by simp [hs])]
        exact ⟨.badScheme u.scheme, rfl⟩

/-- Witness for C6's error part at the URL record parsed from
`http://x?aid=a`. -/
theorem parse_coap_url_spec_witness :
    ∃ e, parseCoapURLFrom (.ok ⟨"http", "x", [("aid", "a")]⟩) = .error e :=
  (parse_coap_url_spec.1 ⟨"http", "x", [("aid", "a")]⟩).2 (by decide)

/-- C8: `readyForBootstrap` returns nil iff `BootstrapID`, `BootstrapURL`
and `BootstrapCert` are all present, and `readyForRegister` returns nil
iff `EndpointName`, `Lwm2mURL` and `Lwm2mCert` are all present; a
returned error names a missing field; and `Bootstrap` (respectively
`Register`) on a device failing its predicate returns that error wrapped,
without running the session, whatever the session would do. -/
theorem device_readiness_gates :
    ∀ d : Device,
      (d.readyForBootstrap = none ↔
        d.bootstrapID.isSome ∧ d.bootstrapURL.isSome ∧
          d.bootstrapCert.isSome) ∧
      (d.readyForRegister = none ↔
        d.endpointName.isSome ∧ d.lwm2mURL.isSome ∧ d.lwm2mCert.isSome) ∧
      (∀ e, d.readyForBootstrap = some e →
        (d.bootstrapID = none ∧ e = "BootstrapID missing") ∨
        (d.bootstrapURL = none ∧ e = "BootstrapURL missing") ∨
        (d.bootstrapCert = none ∧ e = "BootstrapCert missing")) ∧
      (∀ e, d.readyForRegister = some e →
        (d.endpointName = none ∧ e = "EndpointName missing") ∨
        (d.lwm2mURL = none ∧ e = "Lwm2mURL missing") ∨
        (d.lwm2mCert = none ∧ e = "Lwm2mCert missing")) ∧
      (∀ e session, d.readyForBootstrap = some e →
        d.Bootstrap session = some ("Unable to bootstrap: " ++ e)) ∧
      (∀ e session, d.readyForRegister = some e →
        d.Register session = some ("Unable to register: " ++ e)) := by
  intro d
  obtain ⟨acct, bid, burl, bcert, ep, lurl, lcert⟩ := d
  refine ⟨?_, ?_, ?_, ?_, ?_, ?_⟩
  · cases bid <;> cases burl <;> cases bcert <;>
      simp [Device.readyForBootstrap]
  · cases ep <;> cases lurl <;> cases lcert <;>
      simp [Device.readyForRegister]
  · intro e h
    cases bid <;> cases burl <;> cases bcert <;>
      simp_all [Device.readyForBootstrap]
  · intro e h
    cases ep <;> cases lurl <;> cases lcert <;>
      simp_all [Device.readyForRegister]
  · intro e session h
    unfold Device.Bootstrap
    rw [h]
  · intro e session h
    unfold Device.Register
    rw [h]

/-- Witness for C8 at a device holding only an endpoint name: it is not
register-ready, the error names `Lwm2mURL`, and `Register` fails without
running the session. -/
theorem device_readiness_gates_witness :
    ((Device.mk "acct" none none none (some "ep") none none).readyForRegister =
        none ↔
      (Option.some "ep").isSome ∧ (Option.none : Option URL).isSome ∧
        (Option.none : Option TLSCertificate).isSome) ∧
    (Device.mk "acct" none none none (some "ep") none none).Register
        (fun _ => none) =
      some ("Unable to register: " ++ "Lwm2mURL missing") :=
  ⟨(device_readiness_gates
      (Device.mk "acct" none none none (some "ep") none none)).2.1,
   (device_readiness_gates
      (Device.mk "acct" none none none (some "ep") none none)).2.2.2.2.2
      "Lwm2mURL missing" (fun _ => none) (by rfl)⟩

theorem Heap.read_alloc_self (h : Heap) (v : List Nat) :
    (h.alloc v).1.read (h.alloc v).2 = v := by
  simp [Heap.alloc, Heap.read, List.getD_eq_getElem?_getD,
    List.getElem?_concat_length]

theorem Heap.read_alloc_lt (h : Heap) (v : List Nat) (r : Nat)
    (hr : r < h.bufs.length) : (h.alloc v).1.read r = h.read r := by
  simp [Heap.alloc, Heap.read, List.getD_eq_getElem?_getD,
    List.getElem?_append_left hr]

theorem Heap.read_write_ne (h : Heap) (r j : Nat) (v : List Nat)
    (hne : r ≠ j) : (h.write r v).read j = h.read j := by
  simp [Heap.write, Heap.read, List.getD_eq_getElem?_getD,
    List.getElem?_set_ne hne]

theorem lookup_eq_none_of_key_absent {k : String} {m : List (String × Nat)}
    (h : k ∉ m.map Prod.fst) : List.lookup k m = none := by
  induction m with
  | nil => rfl
  | cons p t ih =>
    simp only [List.map_cons, List.mem_cons] at h
    push_neg at h
    rw [List.lookup_cons]
    cases hbe : (k == p.1) with
    | true => exact absurd (eq_of_beq hbe) h.1
    | false => exact ih h.2

theorem lookup_put_self (h : Heap) (m : List (String × Nat)) (k : String)
    (src : Nat) :
    List.lookup k (MemStorePut h m k src).2 = some (h.bufs.length) := by
  simp [MemStorePut, Heap.alloc, List.lookup_cons]

/-- C9: after `Put(k, v)`, `Get(k)` returns bytes equal to `v`; `Get` of
a key never `Put` returns the not-found error; and the stored value is
independent of the caller's buffers — mutating the slice passed to `Put`
after the call, or the slice returned by `Get`, leaves the bytes returned
by later `Get(k)` calls unchanged. -/
theorem mem_store_copy_semantics :
    ∀ (h : Heap) (m : List (String × Nat)) (k : String) (src : Nat),
      src < h.bufs.length →
      (memStoreContent (MemStorePut h m k src).1 (MemStorePut h m k src).2 k =
        some (h.read src)) ∧
      (∀ w, memStoreContent ((MemStorePut h m k src).1.write src w)
          (MemStorePut h m k src).2 k = some (h.read src)) ∧
      (∀ w r,
        (MemStoreGet (MemStorePut h m k src).1
            (MemStorePut h m k src).2 k).2 = .ok r →
        memStoreContent
          ((MemStoreGet (MemStorePut h m k src).1
              (MemStorePut h m k src).2 k).1.write r w)
          (MemStorePut h m k src).2 k = some (h.read src)) ∧
      (∀ m' : List (String × Nat), k ∉ m'.map Prod.fst →
        (MemStoreGet h m' k).2 = .error "Not found") := by
  intro h m k src hsrc
  have hput : MemStorePut h m k src =
      (⟨h.bufs ++ [h.read src]⟩, (k, h.bufs.length) :: m) := rfl
  have hlook : List.lookup k (MemStorePut h m k src).2 =
      some (h.bufs.length) := lookup_put_self h m k src
  have h1 : (MemStorePut h m k src).1 = (⟨h.bufs ++ [h.read src]⟩ : Heap) := rfl
  have hreadref : (MemStorePut h m k src).1.read h.bufs.length = h.read src := by
    rw [h1]
    exact Heap.read_alloc_self h (h.read src)
  refine ⟨?_, ?_, ?_, ?_⟩
  · unfold memStoreContent MemStoreGet
    rw [hlook]
    simp only
    rw [Heap.read_alloc_self]
    rw [hreadref]
  · intro w
    unfold memStoreContent MemStoreGet
    rw [hlook]
    simp only
    rw [Heap.read_alloc_self]
    have hne : src ≠ h.bufs.length := by omega
    rw [Heap.read_write_ne _ _ _ _ hne]
    rw [hreadref]
  · intro w r hr
    have hget : MemStoreGet (MemStorePut h m k src).1
        (MemStorePut h m k src).2 k =
        (((MemStorePut h m k src).1.alloc
            ((MemStorePut h m k src).1.read h.bufs.length)).1,
         .ok ((MemStorePut h m k src).1.alloc
            ((MemStorePut h m k src).1.read h.bufs.length)).2) := by
      unfold MemStoreGet
      rw [hlook]
    rw [hget] at hr
    simp only [Except.ok.injEq] at hr
    subst hr
    rw [hget]
    unfold memStoreContent MemStoreGet
    rw [hlook]
    simp only
    rw [Heap.read_alloc_self]
    have hlen1 : (MemStorePut h m k src).1.bufs.length = h.bufs.length + 1 := by
      rw [h1]
      simp
    have hne2 : ((MemStorePut h m k src).1.alloc
        ((MemStorePut h m k src).1.read h.bufs.length)).2 ≠ h.bufs.length := by
      show (MemStorePut h m k src).1.bufs.length ≠ h.bufs.length
      omega
    rw [Heap.read_write_ne _ _ _ _ hne2]
    rw [Heap.read_alloc_lt _ _ _ (by omega)]
    rw [hreadref]
  · intro m' hm'
    unfold MemStoreGet
    rw [lookup_eq_none_of_key_absent hm']

/-- Witness for C9 on a one-buffer heap: putting the bytes `[1, 2, 3]`
under `/0/0/0` and getting them back returns those bytes. -/
theorem mem_store_copy_semantics_witness :
    memStoreContent (MemStorePut ⟨[[1, 2, 3]]⟩ [] "/0/0/0" 0).1
        (MemStorePut ⟨[[1, 2, 3]]⟩ [] "/0/0/0" 0).2 "/0/0/0" =
      some (Heap.read ⟨[[1, 2, 3]]⟩ 0) :=
  (mem_store_copy_semantics ⟨[[1, 2, 3]]⟩ [] "/0/0/0" 0 (by decide)).1
